import Mathlib

/-!
# Verification of the ci_fuzz reachability engine

A shallow embedding of the impact-analysis core of the repository:

* `src/src/lsp_client.py` — `ClangdLSPClient` (`start`, `_read_responses`,
  `_send_request`), `build_call_graph_with_lsp` (the bounded BFS over the caller
  graph) and `build_call_graph_simple` (the grep-based fallback);
* `src/src/lsp_analyzer.py` — `find_related_public_apis`.

Modelling conventions:

* External effects are oracles passed as function arguments: `fileExists`
  models `os.path.exists`, `callers` models `client.get_incoming_calls`
  (the LSP caller lookup, allowed to behave arbitrarily — timeouts and errors
  inside `get_incoming_calls` are caught there and surface as a possibly empty
  caller set), `grepOut` models the stdout of the `grep` subprocess
  (`none` = the subprocess raised, e.g. a timeout), and `tableAt` models the
  contents of the response table `self.responses` as filled in by the
  concurrent reader thread, sampled at each 0.1 s poll tick.
* Python `set` becomes `Finset String`; dict iteration becomes a list of
  key/value pairs; iteration over a Python set becomes a list in some order.
* Unbounded `while` loops are modelled with an explicit fuel argument; the
  accompanying weight function and the fuel-irrelevance theorems show that any
  fuel at least the call-tree weight of the initial queue yields the same
  result, which is exactly the termination argument for the source's loop.
-/

namespace CiFuzz

/-- A unit of BFS work in `build_call_graph_with_lsp`:
the tuple `(function name, file path, depth)` pushed on `queue`. -/
structure FrontierItem where
  func : String
  file : String
  depth : Nat
deriving DecidableEq

/-- Model of `os.path.join(build_dir, file_path)` for the common case of a
relative second component (the only case exercised by the engine). -/
def ospathJoin (a b : String) : String := a ++ "/" ++ b

/-- Size of the caller tree rooted at `func` in `file`, explored for `rem`
more levels: an upper bound on the number of loop iterations the BFS can
spend on a frontier item whose remaining depth budget is `rem`.  This is the
termination measure for the source's `while queue:` loop. -/
def callWeight (callers : String → String → List String) (file : String) :
    Nat → String → Nat
  | 0, _ => 1
  | rem + 1, func =>
      1 + ((callers file func).map (fun c => callWeight callers file rem c)).sum

/-- Weight of one frontier item: its caller tree truncated at `maxDepth`.
An item deeper than `maxDepth` still costs one iteration (the discard). -/
def itemWeight (callers : String → String → List String) (maxDepth : Nat)
    (it : FrontierItem) : Nat :=
  callWeight callers it.file (maxDepth + 1 - it.depth) it.func

/-- Total weight of the BFS queue; the fuel the engine runs the loop with. -/
def queueWeight (callers : String → String → List String) (maxDepth : Nat)
    (q : List FrontierItem) : Nat :=
  (q.map (itemWeight callers maxDepth)).sum

/-- The `while queue:` loop of `build_call_graph_with_lsp`
(src/src/lsp_client.py lines 272-292), one Python iteration per fuel unit:

    current_func, current_file, depth = queue.pop(0)
    func_key = f"{current_file}:{current_func}"
    if func_key in visited or depth > max_depth: continue
    visited.add(func_key)
    if current_func in public_apis: related_apis.add(current_func); continue
    callers = client.get_incoming_calls(current_file, current_func)
    for caller in callers: queue.append((caller, current_file, depth + 1))

Returns the final `(visited, related_apis)` pair.  `bfs_fuel_irrelevant`
shows the fuel is immaterial from `queueWeight` on. -/
def bfsLoop (callers : String → String → List String) (public : Finset String)
    (maxDepth : Nat) :
    Nat → List FrontierItem → Finset String → Finset String →
    Finset String × Finset String
  | _, [], visited, related => (visited, related)
  | 0, _ :: _, visited, related => (visited, related)
  | fuel + 1, item :: rest, visited, related =>
    let func_key := item.file ++ ":" ++ item.func
    if func_key ∈ visited ∨ item.depth > maxDepth then
      bfsLoop callers public maxDepth fuel rest visited related
    else if item.func ∈ public then
      bfsLoop callers public maxDepth fuel rest (insert func_key visited)
        (insert item.func related)
    else
      bfsLoop callers public maxDepth fuel
        (rest ++ (callers item.file item.func).map
          (fun c => ⟨c, item.file, item.depth + 1⟩))
        (insert func_key visited) related

/-- The body of `for func in functions:` in `build_call_graph_with_lsp`:
seed a fresh queue `[(func, full_file_path, 0)]` and run the BFS, threading
the shared `(visited, related_apis)` state. -/
def seedBFS (callers : String → String → List String) (public : Finset String)
    (maxDepth : Nat) (file func : String)
    (st : Finset String × Finset String) : Finset String × Finset String :=
  let q : List FrontierItem := [⟨func, file, 0⟩]
  bfsLoop callers public maxDepth (queueWeight callers maxDepth q) q st.1 st.2

/-- The body of `for file_path, functions in changed_functions.items():`
(src/src/lsp_client.py lines 262-292): join the path under the build
directory, skip the whole entry when the file does not exist on disk,
otherwise run one seeded BFS per changed function. -/
def engineEntryStep (fileExists : String → Bool)
    (callers : String → String → List String) (public : Finset String)
    (maxDepth : Nat) (build_dir : String)
    (st : Finset String × Finset String) (entry : String × List String) :
    Finset String × Finset String :=
  let full_file_path := ospathJoin build_dir entry.1
  if fileExists full_file_path then
    entry.2.foldl (fun s func => seedBFS callers public maxDepth full_file_path func s) st
  else
    st

/-- The LSP-backed path of `build_call_graph_with_lsp` (after a successful
`client.start()`): fold the per-entry step over the change set starting from
empty `visited` and `related_apis`, and return `related_apis`. -/
def lspEngine (fileExists : String → Bool)
    (callers : String → String → List String) (build_dir : String)
    (changed : List (String × List String)) (public : Finset String)
    (maxDepth : Nat) : Finset String :=
  (changed.foldl (engineEntryStep fileExists callers public maxDepth build_dir)
    (∅, ∅)).2

/-- First index of `pat` as a contiguous sublist of `l` (model of Python's
`bytes.index` / the `in` containment test used on the reader buffer). -/
def listIndexOfSub : List Char → List Char → Option Nat
  | l, pat =>
    if pat.isPrefixOf l then some 0
    else
      match l with
      | [] => none
      | _ :: rest =>
        match listIndexOfSub rest pat with
        | some i => some (i + 1)
        | none => none

/-- `sub in s` for Python strings (substring containment). -/
def containsSubstr (s sub : String) : Bool :=
  (listIndexOfSub s.toList sub.toList).isSome

/-- Callers extracted from grep output in `build_call_graph_simple`
(src/src/lsp_client.py lines 330-343).  The source iterates
`result.stdout.split('\n')`, filters lines that contain `':'` and the current
function name, but the loop body is `pass`, so nothing is ever extracted; a
grep failure (modelled as `none`, e.g. a subprocess timeout) is swallowed by
the bare `except` and likewise contributes nothing. -/
def simpleExtractedCallers (grepOutput : Option String) (current_func : String) :
    List String :=
  match grepOutput with
  | none => []
  | some out =>
      ((out.splitOn "\n").filter
        (fun line => line.contains ':' && containsSubstr line current_func)).foldl
        (fun acc _line => acc) []

/-- The `while queue:` loop of `build_call_graph_simple`
(src/src/lsp_client.py lines 317-343).  The visited set is keyed by function
name only and the queue items are `(function name, depth)` pairs. -/
def simpleLoop (grepOut : String → String → Option String) (build_dir : String)
    (public : Finset String) (maxDepth : Nat) :
    Nat → List (String × Nat) → Finset String → Finset String →
    Finset String × Finset String
  | _, [], visited, related => (visited, related)
  | 0, _ :: _, visited, related => (visited, related)
  | fuel + 1, (current_func, depth) :: rest, visited, related =>
    if current_func ∈ visited ∨ depth > maxDepth then
      simpleLoop grepOut build_dir public maxDepth fuel rest visited related
    else if current_func ∈ public then
      simpleLoop grepOut build_dir public maxDepth fuel rest
        (insert current_func visited) (insert current_func related)
    else
      simpleLoop grepOut build_dir public maxDepth fuel
        (rest ++ (simpleExtractedCallers (grepOut build_dir current_func)
          current_func).map (fun c => (c, depth + 1)))
        (insert current_func visited) related

/-- `build_call_graph_simple` (src/src/lsp_client.py lines 299-345): the
grep-based fallback.  Every changed function seeds a fresh one-element queue;
since `simpleExtractedCallers` is always empty, fuel 1 runs each seeded loop
to completion (`simpleLoop_fuel_irrelevant` below). -/
def build_call_graph_simple (grepOut : String → String → Option String)
    (build_dir : String) (changed : List (String × List String))
    (public : Finset String) (maxDepth : Nat) : Finset String :=
  (changed.foldl
    (fun st entry =>
      entry.2.foldl
        (fun st2 func =>
          simpleLoop grepOut build_dir public maxDepth 1 [(func, 0)] st2.1 st2.2)
        st)
    (∅, ∅)).2

/-- `build_call_graph_with_lsp` (src/src/lsp_client.py lines 237-297):
`startOk` is the boolean returned by `client.start()`; on failure the function
returns `build_call_graph_simple` on the same arguments, otherwise it runs the
LSP-backed BFS. -/
def build_call_graph_with_lsp (startOk : Bool) (fileExists : String → Bool)
    (callers : String → String → List String)
    (grepOut : String → String → Option String) (build_dir : String)
    (changed : List (String × List String)) (public : Finset String)
    (maxDepth : Nat) : Finset String :=
  if startOk then lspEngine fileExists callers build_dir changed public maxDepth
  else build_call_graph_simple grepOut build_dir changed public maxDepth

/-- The direct-relation step of `find_related_public_apis`
(src/src/lsp_analyzer.py lines 106-112): every changed function that is a
public API, with no file-existence check. -/
def direct_apis (changed : List (String × List String)) (public : Finset String) :
    Finset String :=
  changed.foldl
    (fun acc entry =>
      entry.2.foldl (fun acc2 func => if func ∈ public then insert func acc2 else acc2) acc)
    ∅

/-- `find_related_public_apis` (src/src/lsp_analyzer.py lines 91-133).
The public API set produced by `find_public_apis` (an `nm`/header scan, pure
I/O) is passed in as `public`; the engine is invoked with `max_depth=10`,
its output has the direct matches subtracted and the two parts are unioned. -/
def find_related_public_apis (startOk : Bool) (fileExists : String → Bool)
    (callers : String → String → List String)
    (grepOut : String → String → Option String) (build_dir : String)
    (changed : List (String × List String)) (public : Finset String) :
    Finset String :=
  let related := direct_apis changed public
  let indirect := build_call_graph_with_lsp startOk fileExists callers grepOut
    build_dir changed public 10
  let indirect2 := indirect \ related
  related ∪ indirect2

/-! ## Protocol client: request ids and the polled wait (`_send_request`) -/

/-- The id-relevant state of `ClangdLSPClient`: `self.msg_id`, initialised to
0 in `__init__` and only ever incremented by `_send_request`. -/
structure ClangdClientState where
  msg_id : Nat
deriving DecidableEq

/-- The id assignment of `_send_request` (src/src/lsp_client.py lines
116-124): `current_id = self.msg_id; self.msg_id += 1`.  Returns the id used
for this request and the successor state. -/
def sendRequestId (s : ClangdClientState) : Nat × ClangdClientState :=
  (s.msg_id, ⟨s.msg_id + 1⟩)

/-- The ids assigned by `n` consecutive `_send_request` calls starting from
client state `s`. -/
def sessionIds : ClangdClientState → Nat → List Nat
  | _, 0 => []
  | s, n + 1 => (sendRequestId s).1 :: sessionIds (sendRequestId s).2 n

/-- The polled wait of `_send_request` (src/src/lsp_client.py lines 128-134):
`for _ in range(50): if current_id in self.responses: return pop; sleep(0.1)`.
`tableAt t` is the response recorded for the current id in `self.responses`
at poll tick `t` (filled concurrently by the reader thread); the first
argument is the current tick, the second the remaining poll count. -/
def pollLoop (tableAt : Nat → Option String) : Nat → Nat → Option String
  | _, 0 => none
  | t, k + 1 =>
    match tableAt t with
    | some r => some r
    | none => pollLoop tableAt (t + 1) k

/-- The result of one `_send_request` call: up to 50 polls in 0.1 s steps
(≈5 s); on expiry the result is `None` — returned, not raised. -/
def sendRequestResult (tableAt : Nat → Option String) : Option String :=
  pollLoop tableAt 0 50

/-- `ClangdLSPClient.start` (src/src/lsp_client.py lines 29-76).  `spawnOk`
is whether `subprocess.Popen` (the only statement in the `try` block that can
raise) succeeds.  After a successful spawn the initialize response — possibly
`none` when the 5 s polled wait expires — is bound to a local and never
inspected; the `initialized` notification is sent and the function returns
`True`.  Only the `except` path returns `False`. -/
def clangdStart (spawnOk : Bool) (tableAt : Nat → Option String) : Bool :=
  if spawnOk then
    let _response := sendRequestResult tableAt
    true
  else
    false

/-! ## The background reader (`_read_responses`)

The byte stream on the subprocess's stdout is modelled as a `List Char`
(one character per byte; the model is restricted to UTF-8-decodable streams,
so the `bytes.decode` calls are lossless and never raise).  The outer
`while ... read(1024)` chunking loop is abstracted to processing the whole
stream: the inner framing loop resumes exactly where it stopped when more
data arrives, so the final state is that of processing the concatenation.
`jsonParse` is the oracle for `json.loads` on the decoded body: `none` means
`JSONDecodeError`, `some none` a valid message without an `'id'` field, and
`some (some i)` a valid message whose `'id'` is `i`. -/

/-- Python `str.split('\r\n')`. -/
def splitOnCRLF : List Char → List (List Char)
  | [] => [[]]
  | [c] => [[c]]
  | c1 :: c2 :: rest =>
    if c1 = '\r' ∧ c2 = '\n' then [] :: splitOnCRLF rest
    else
      match splitOnCRLF (c2 :: rest) with
      | [] => [[c1]]
      | g :: gs => (c1 :: g) :: gs

/-- Python `str.split(':')`. -/
def splitOnColon : List Char → List (List Char)
  | [] => [[]]
  | c :: rest =>
    if c = ':' then [] :: splitOnColon rest
    else
      match splitOnColon rest with
      | [] => [[c]]
      | g :: gs => (c :: g) :: gs

/-- The whitespace characters stripped by Python's `str.strip()` (the subset
relevant to LSP headers). -/
def pyWhitespace (c : Char) : Bool :=
  c = ' ' || c = '\t' || c = '\n' || c = '\r'

/-- Python `str.strip()`. -/
def pyStrip (l : List Char) : List Char :=
  ((l.dropWhile pyWhitespace).reverse.dropWhile pyWhitespace).reverse

/-- Value of a non-empty all-digit string, accumulator form. -/
def digitsValAux : Nat → List Char → Option Nat
  | acc, [] => some acc
  | acc, c :: r =>
    if c.isDigit then digitsValAux (acc * 10 + (c.toNat - '0'.toNat)) r
    else none

/-- Digit-string value; `none` for the empty string or any non-digit. -/
def digitsVal : List Char → Option Nat
  | [] => none
  | l => digitsValAux 0 l

/-- Model of Python's `int(s)` builtin on the strings reaching it here:
strip whitespace, optional sign, then a non-empty digit run; `none` models
the `ValueError` it raises otherwise. -/
def pyInt (l : List Char) : Option Int :=
  match pyStrip l with
  | '-' :: r => (digitsVal r).map (fun n => -(n : Int))
  | '+' :: r => (digitsVal r).map (fun n => (n : Int))
  | t => (digitsVal t).map (fun n => (n : Int))

/-- The header scan of `_read_responses` (src/src/lsp_client.py lines
93-97): `content_length = 0`, then the first header line starting with
`'Content-Length:'` sets `content_length = int(line.split(':')[1].strip())`.
Result `none` models the `ValueError` escaping from `int` (caught only by the
outer `except Exception: break`). -/
def contentLengthOfHeaders (headers : List Char) : Option Int :=
  match (splitOnCRLF headers).find?
      (fun line => ("Content-Length:".toList).isPrefixOf line) with
  | none => some 0
  | some line =>
    match (splitOnColon line).get? 1 with
    | none => none
    | some seg => pyInt seg

/-- Normalise a Python slice index against length `L`: negative indices count
from the end, and the result is clamped to `[0, L]`. -/
def pyIndexNorm (L : Nat) (i : Int) : Nat :=
  if i < 0 then L - (-i).toNat else min i.toNat L

/-- Python `l[k:]`. -/
def pyDropFrom (l : List Char) (k : Int) : List Char :=
  l.drop (pyIndexNorm l.length k)

/-- Python `l[a:b]`. -/
def pySliceRange (l : List Char) (a b : Int) : List Char :=
  (l.take (pyIndexNorm l.length b)).drop (pyIndexNorm l.length a)

/-- Observable outcome of the reader: the recorded `self.responses` entries
(most recent first; a later write to the same id shadows an earlier one),
whether the loop exited through the `except ...: break` path (`died`), and
whether the Python loop would spin forever without consuming input (`hung`,
reachable only via a negative `Content-Length`). -/
structure ReaderOutcome where
  responses : List (Int × String)
  died : Bool
  hung : Bool
deriving DecidableEq

/-- The framing loop `while b'\r\n\r\n' in buffer:` of `_read_responses`
(src/src/lsp_client.py lines 89-110), one Python iteration per fuel unit.
Every productive iteration consumes at least four bytes, so fuel equal to the
buffer length (as supplied by `readResponses`) is never exhausted except when
the Python loop itself would never terminate, which the model reports as
`hung`. -/
def readInner (jsonParse : String → Option (Option Int)) :
    Nat → List Char → List (Int × String) → ReaderOutcome
  | fuel, buffer, responses =>
    match listIndexOfSub buffer ['\r', '\n', '\r', '\n'] with
    | none => ⟨responses, false, false⟩
    | some header_end =>
      match contentLengthOfHeaders (buffer.take header_end) with
      | none => ⟨responses, true, false⟩
      | some content_length =>
        if (buffer.length : Int) ≥ (header_end : Int) + 4 + content_length then
          let content := pySliceRange buffer ((header_end : Int) + 4)
            ((header_end : Int) + 4 + content_length)
          let buffer' := pyDropFrom buffer ((header_end : Int) + 4 + content_length)
          let responses' :=
            match jsonParse (String.mk content) with
            | none => responses
            | some none => responses
            | some (some i) => (i, String.mk content) :: responses
          match fuel with
          | 0 => ⟨responses', false, true⟩
          | n + 1 => readInner jsonParse n buffer' responses'
        else ⟨responses, false, false⟩

/-- `_read_responses` over a complete stdout stream: the reader starts with
an empty buffer and an empty response table and drains the stream. -/
def readResponses (jsonParse : String → Option (Option Int)) (stream : String) :
    ReaderOutcome :=
  readInner jsonParse stream.toList.length stream.toList []

/-! ## Helper lemmas: the LSP-backed BFS -/

lemma bfsLoop_nil (callers : String → String → List String) (public : Finset String)
    (maxDepth fuel : Nat) (v r : Finset String) :
    bfsLoop callers public maxDepth fuel [] v r = (v, r) := by
  cases fuel <;> rfl

lemma callWeight_pos (callers : String → String → List String) (file : String)
    (rem : Nat) (func : String) : 1 ≤ callWeight callers file rem func := by
  cases rem <;> simp [callWeight]

lemma itemWeight_pos (callers : String → String → List String) (maxDepth : Nat)
    (it : FrontierItem) : 1 ≤ itemWeight callers maxDepth it :=
  callWeight_pos _ _ _ _

lemma queueWeight_cons (callers : String → String → List String) (maxDepth : Nat)
    (it : FrontierItem) (rest : List FrontierItem) :
    queueWeight callers maxDepth (it :: rest)
      = itemWeight callers maxDepth it + queueWeight callers maxDepth rest := by
  simp [queueWeight]

lemma queueWeight_append (callers : String → String → List String) (maxDepth : Nat)
    (q₁ q₂ : List FrontierItem) :
    queueWeight callers maxDepth (q₁ ++ q₂)
      = queueWeight callers maxDepth q₁ + queueWeight callers maxDepth q₂ := by
  simp [queueWeight]

/-- Expanding an in-budget item costs one iteration plus the weight of the
items it enqueues. -/
lemma itemWeight_expand (callers : String → String → List String) (maxDepth : Nat)
    (it : FrontierItem) (hd : it.depth ≤ maxDepth) :
    itemWeight callers maxDepth it
      = 1 + queueWeight callers maxDepth
          ((callers it.file it.func).map (fun c => ⟨c, it.file, it.depth + 1⟩)) := by
  have h1 : maxDepth + 1 - it.depth = (maxDepth - it.depth) + 1 := by omega
  have h2 : maxDepth + 1 - (it.depth + 1) = maxDepth - it.depth := by omega
  simp only [itemWeight, h1, callWeight, queueWeight, List.map_map]
  congr 1
  apply congrArg
  apply List.map_congr_left
  intro c _
  simp [Function.comp, itemWeight, h2]

/-- Anything the BFS adds to `related_apis` is a public API. -/
lemma bfsLoop_related_mem (callers : String → String → List String)
    (public : Finset String) (maxDepth : Nat) :
    ∀ (fuel : Nat) (q : List FrontierItem) (v r : Finset String) (x : String),
      x ∈ (bfsLoop callers public maxDepth fuel q v r).2 → x ∈ r ∨ x ∈ public := by
  intro fuel
  induction fuel with
  | zero =>
    intro q v r x hx
    cases q <;> simpa [bfsLoop] using Or.inl hx
  | succ n ih =>
    intro q v r x hx
    cases q with
    | nil => simpa [bfsLoop] using Or.inl hx
    | cons it rest =>
      simp only [bfsLoop] at hx
      by_cases h1 : it.file ++ ":" ++ it.func ∈ v ∨ it.depth > maxDepth
      · rw [if_pos h1] at hx
        exact ih _ _ _ _ hx
      · rw [if_neg h1] at hx
        by_cases h2 : it.func ∈ public
        · rw [if_pos h2] at hx
          rcases ih _ _ _ _ hx with h | h
          · rcases Finset.mem_insert.mp h with h | h
            · exact Or.inr (h ▸ h2)
            · exact Or.inl h
          · exact Or.inr h
        · rw [if_neg h2] at hx
          exact ih _ _ _ _ hx

/-- Generic fold invariant: if one step can only add members satisfying `P`
to the tracked component, so can the whole fold. -/
lemma foldl_mem_or {β γ : Type} (f : γ → β → γ) (mem : γ → Prop) (P : Prop)
    (hf : ∀ st e, mem (f st e) → mem st ∨ P) :
    ∀ (l : List β) (st : γ), mem (l.foldl f st) → mem st ∨ P := by
  intro l
  induction l with
  | nil => intro st h; exact Or.inl h
  | cons e tl ih =>
    intro st h
    rcases ih (f st e) h with h' | h'
    · exact hf st e h'
    · exact Or.inr h'

/-- Anything `lspEngine` returns is a public API. -/
lemma lspEngine_subset (fileExists : String → Bool)
    (callers : String → String → List String) (build_dir : String)
    (changed : List (String × List String)) (public : Finset String)
    (maxDepth : Nat) :
    lspEngine fileExists callers build_dir changed public maxDepth ⊆ public := by
  intro x hx
  unfold lspEngine at hx
  have step : ∀ (st : Finset String × Finset String) (e : String × List String),
      x ∈ (engineEntryStep fileExists callers public maxDepth build_dir st e).2 →
      x ∈ st.2 ∨ x ∈ public := by
    intro st e he
    unfold engineEntryStep at he
    by_cases hex : fileExists (ospathJoin build_dir e.1)
    · rw [if_pos hex] at he
      refine foldl_mem_or _ (fun st2 => x ∈ st2.2) (x ∈ public) ?_ e.2 st he
      intro st2 func h2
      unfold seedBFS at h2
      exact bfsLoop_related_mem _ _ _ _ _ _ _ _ h2
    · rw [if_neg hex] at he
      exact Or.inl he
  rcases foldl_mem_or _ (fun st => x ∈ st.2) (x ∈ public) step changed (∅, ∅) hx with h | h
  · simp at h
  · exact h

/-! ## Helper lemmas: the grep fallback -/

lemma foldl_keep_acc {α β : Type} (l : List α) (init : β) :
    l.foldl (fun acc _ => acc) init = init := by
  induction l with
  | nil => rfl
  | cons _ tl ih => simp only [List.foldl_cons]; exact ih

/-- The fallback's caller-extraction step never produces a caller. -/
lemma simpleExtractedCallers_eq_nil (grepOutput : Option String)
    (current_func : String) :
    simpleExtractedCallers grepOutput current_func = [] := by
  cases grepOutput with
  | none => rfl
  | some out => simp [simpleExtractedCallers, foldl_keep_acc]

/-- One seeded iteration of the fallback loop, in closed form. -/
lemma simpleLoop_one (grepOut : String → String → Option String)
    (build_dir : String) (public : Finset String) (maxDepth : Nat)
    (func : String) (v r : Finset String) :
    simpleLoop grepOut build_dir public maxDepth 1 [(func, 0)] v r
      = if func ∈ v then (v, r)
        else if func ∈ public then (insert func v, insert func r)
        else (insert func v, r) := by
  by_cases hv : func ∈ v
  · simp [simpleLoop, hv]
  · by_cases hp : func ∈ public
    · simp [simpleLoop, hv, hp]
    · simp [simpleLoop, hv, hp, simpleExtractedCallers_eq_nil]

/-- Invariant carried through the per-entry fold of the fallback: the related
set stays `visited ∩ public`, and the visited set accumulates exactly the
seeded function names. -/
lemma simple_funcs_fold (grepOut : String → String → Option String)
    (build_dir : String) (public : Finset String) (maxDepth : Nat)
    (funcs : List String) :
    ∀ (v r : Finset String), (∀ y, y ∈ r ↔ y ∈ v ∧ y ∈ public) →
      (∀ y, y ∈ (funcs.foldl
          (fun st2 func =>
            simpleLoop grepOut build_dir public maxDepth 1 [(func, 0)] st2.1 st2.2)
          (v, r)).1 ↔ (y ∈ v ∨ y ∈ funcs)) ∧
      (∀ y, y ∈ (funcs.foldl
          (fun st2 func =>
            simpleLoop grepOut build_dir public maxDepth 1 [(func, 0)] st2.1 st2.2)
          (v, r)).2 ↔ ((y ∈ v ∨ y ∈ funcs) ∧ y ∈ public)) := by
  induction funcs with
  | nil =>
    intro v r hvr
    constructor
    · intro y; simp
    · intro y; simpa using hvr y
  | cons f tl ih =>
    intro v r hvr
    rw [List.foldl_cons]
    have hstep : simpleLoop grepOut build_dir public maxDepth 1 [(f, 0)] v r
        = if f ∈ v then (v, r)
          else if f ∈ public then (insert f v, insert f r)
          else (insert f v, r) := simpleLoop_one _ _ _ _ _ _ _
    by_cases hv : f ∈ v
    · rw [hstep, if_pos hv]
      obtain ⟨h1, h2⟩ := ih v r hvr
      constructor
      · intro y
        rw [h1 y]
        constructor
        · rintro (h | h)
          · exact Or.inl h
          · exact Or.inr (List.mem_cons_of_mem _ h)
        · rintro (h | h)
          · exact Or.inl h
          · rcases List.mem_cons.mp h with rfl | h
            · exact Or.inl hv
            · exact Or.inr h
      · intro y
        rw [h2 y]
        constructor
        · rintro ⟨h | h, hp⟩
          · exact ⟨Or.inl h, hp⟩
          · exact ⟨Or.inr (List.mem_cons_of_mem _ h), hp⟩
        · rintro ⟨h | h, hp⟩
          · exact ⟨Or.inl h, hp⟩
          · rcases List.mem_cons.mp h with rfl | h
            · exact ⟨Or.inl hv, hp⟩
            · exact ⟨Or.inr h, hp⟩
    · by_cases hp : f ∈ public
      · rw [hstep, if_neg hv, if_pos hp]
        have hvr' : ∀ y, y ∈ insert f r ↔ y ∈ insert f v ∧ y ∈ public := by
          intro y
          simp only [Finset.mem_insert]
          constructor
          · rintro (rfl | h)
            · exact ⟨Or.inl rfl, hp⟩
            · exact ⟨Or.inr ((hvr y).mp h).1, ((hvr y).mp h).2⟩
          · rintro ⟨rfl | h, hyp⟩
            · exact Or.inl rfl
            · exact Or.inr ((hvr y).mpr ⟨h, hyp⟩)
        obtain ⟨h1, h2⟩ := ih (insert f v) (insert f r) hvr'
        constructor
        · intro y
          rw [h1 y]
          simp only [Finset.mem_insert, List.mem_cons]
          tauto
        · intro y
          rw [h2 y]
          simp only [Finset.mem_insert, List.mem_cons]
          tauto
      · rw [hstep, if_neg hv, if_neg hp]
        have hvr' : ∀ y, y ∈ r ↔ y ∈ insert f v ∧ y ∈ public := by
          intro y
          rw [hvr y]
          simp only [Finset.mem_insert]
          constructor
          · rintro ⟨h, hyp⟩; exact ⟨Or.inr h, hyp⟩
          · rintro ⟨rfl | h, hyp⟩
            · exact absurd hyp hp
            · exact ⟨h, hyp⟩
        obtain ⟨h1, h2⟩ := ih (insert f v) r hvr'
        constructor
        · intro y
          rw [h1 y]
          simp only [Finset.mem_insert, List.mem_cons]
          tauto
        · intro y
          rw [h2 y]
          simp only [Finset.mem_insert, List.mem_cons]
          tauto

/-- Full characterisation of the fallback: it returns exactly the changed
function names that are public APIs. -/
lemma build_call_graph_simple_mem (grepOut : String → String → Option String)
    (build_dir : String) (changed : List (String × List String))
    (public : Finset String) (maxDepth : Nat) (x : String) :
    x ∈ build_call_graph_simple grepOut build_dir changed public maxDepth
      ↔ (x ∈ public ∧ ∃ e ∈ changed, x ∈ e.2) := by
  unfold build_call_graph_simple
  suffices h : ∀ (v r : Finset String), (∀ y, y ∈ r ↔ y ∈ v ∧ y ∈ public) →
      (∀ y, y ∈ (changed.foldl
          (fun st entry => entry.2.foldl
            (fun st2 func =>
              simpleLoop grepOut build_dir public maxDepth 1 [(func, 0)] st2.1 st2.2)
            st)
          (v, r)).1 ↔ (y ∈ v ∨ ∃ e ∈ changed, y ∈ e.2)) ∧
      (∀ y, y ∈ (changed.foldl
          (fun st entry => entry.2.foldl
            (fun st2 func =>
              simpleLoop grepOut build_dir public maxDepth 1 [(func, 0)] st2.1 st2.2)
            st)
          (v, r)).2 ↔ ((y ∈ v ∨ ∃ e ∈ changed, y ∈ e.2) ∧ y ∈ public)) by
    have hmain := (h ∅ ∅ (by intro y; simp)).2 x
    rw [hmain]
    simp only [Finset.not_mem_empty, false_or]
    tauto
  induction changed with
  | nil =>
    intro v r hvr
    constructor
    · intro y; simp
    · intro y; simpa using hvr y
  | cons e tl ih =>
    intro v r hvr
    rw [List.foldl_cons]
    obtain ⟨g1, g2⟩ := simple_funcs_fold grepOut build_dir public maxDepth e.2 v r hvr
    have hvr2 : ∀ y, y ∈ (e.2.foldl
        (fun st2 func =>
          simpleLoop grepOut build_dir public maxDepth 1 [(func, 0)] st2.1 st2.2)
        (v, r)).2 ↔ y ∈ (e.2.foldl
        (fun st2 func =>
          simpleLoop grepOut build_dir public maxDepth 1 [(func, 0)] st2.1 st2.2)
        (v, r)).1 ∧ y ∈ public := by
      intro y
      rw [g2 y, g1 y]
    obtain ⟨h1, h2⟩ := ih _ _ hvr2
    constructor
    · intro y
      rw [h1 y, g1 y]
      simp only [List.mem_cons]
      constructor
      · rintro ((h | h) | ⟨a, ha, hy⟩)
        · exact Or.inl h
        · exact Or.inr ⟨e, Or.inl rfl, h⟩
        · exact Or.inr ⟨a, Or.inr ha, hy⟩
      · rintro (h | ⟨a, (rfl | ha), hy⟩)
        · exact Or.inl (Or.inl h)
        · exact Or.inl (Or.inr hy)
        · exact Or.inr ⟨a, ha, hy⟩
    · intro y
      rw [h2 y, g1 y]
      simp only [List.mem_cons]
      constructor
      · rintro ⟨(h | h) | ⟨a, ha, hy⟩, hp⟩
        · exact ⟨Or.inl h, hp⟩
        · exact ⟨Or.inr ⟨e, Or.inl rfl, h⟩, hp⟩
        · exact ⟨Or.inr ⟨a, Or.inr ha, hy⟩, hp⟩
      · rintro ⟨h | ⟨a, (rfl | ha), hy⟩, hp⟩
        · exact ⟨Or.inl (Or.inl h), hp⟩
        · exact ⟨Or.inl (Or.inr hy), hp⟩
        · exact ⟨Or.inr ⟨a, ha, hy⟩, hp⟩

/-- Fuel-irrelevance of the BFS loop: any two fuels at least the call-tree
weight of the queue yield the same result.  This is the termination argument
for the source's unbounded `while queue:` loop — it performs at most
`queueWeight` iterations, each key being admitted at most once and items
beyond `max_depth` being discarded. -/
lemma bfsLoop_fuel_irrelevant (callers : String → String → List String)
    (public : Finset String) (maxDepth : Nat) :
    ∀ (n₁ n₂ : Nat) (q : List FrontierItem) (v r : Finset String),
      queueWeight callers maxDepth q ≤ n₁ → queueWeight callers maxDepth q ≤ n₂ →
      bfsLoop callers public maxDepth n₁ q v r
        = bfsLoop callers public maxDepth n₂ q v r := by
  intro n₁
  induction n₁ using Nat.strong_induction_on with
  | _ n₁ ih =>
    intro n₂ q v r h₁ h₂
    cases q with
    | nil => rw [bfsLoop_nil, bfsLoop_nil]
    | cons it rest =>
      have hw : 1 ≤ itemWeight callers maxDepth it := itemWeight_pos _ _ _
      rw [queueWeight_cons] at h₁ h₂
      obtain ⟨m₁, rfl⟩ : ∃ k, n₁ = k + 1 := ⟨n₁ - 1, by omega⟩
      obtain ⟨m₂, rfl⟩ : ∃ k, n₂ = k + 1 := ⟨n₂ - 1, by omega⟩
      simp only [bfsLoop]
      by_cases hc1 : it.file ++ ":" ++ it.func ∈ v ∨ it.depth > maxDepth
      · rw [if_pos hc1, if_pos hc1]
        exact ih m₁ (by omega) m₂ rest v r (by omega) (by omega)
      · rw [if_neg hc1, if_neg hc1]
        by_cases hc2 : it.func ∈ public
        · rw [if_pos hc2, if_pos hc2]
          exact ih m₁ (by omega) m₂ rest _ _ (by omega) (by omega)
        · rw [if_neg hc2, if_neg hc2]
          have hd : it.depth ≤ maxDepth := by
            rcases Nat.lt_or_ge maxDepth it.depth with h | h
            · exact absurd (Or.inr h) hc1
            · exact h
          have hexp := itemWeight_expand callers maxDepth it hd
          have hqw : queueWeight callers maxDepth
              (rest ++ (callers it.file it.func).map
                (fun c => ⟨c, it.file, it.depth + 1⟩))
              = queueWeight callers maxDepth rest
                + (itemWeight callers maxDepth it - 1) := by
            rw [queueWeight_append]
            omega
          exact ih m₁ (by omega) m₂ _ _ _ (by omega) (by omega)

/-! ## Helper lemmas: the direct-relation step -/

/-- The inner fold of `direct_apis` only accumulates public names. -/
lemma direct_inner_sub (public : Finset String) (funcs : List String)
    (x : String) :
    ∀ acc : Finset String,
      x ∈ funcs.foldl
        (fun acc2 func => if func ∈ public then insert func acc2 else acc2) acc →
      x ∈ acc ∨ x ∈ public := by
  induction funcs with
  | nil => intro acc h; exact Or.inl h
  | cons f tl ih =>
    intro acc h
    rw [List.foldl_cons] at h
    by_cases hp : f ∈ public
    · rw [if_pos hp] at h
      rcases ih _ h with h' | h'
      · rcases Finset.mem_insert.mp h' with rfl | h'
        · exact Or.inr hp
        · exact Or.inl h'
      · exact Or.inr h'
    · rw [if_neg hp] at h
      exact ih _ h

/-- The inner fold of `direct_apis` is monotone in its accumulator. -/
lemma direct_inner_mono (public : Finset String) (funcs : List String)
    (x : String) :
    ∀ acc : Finset String, x ∈ acc →
      x ∈ funcs.foldl
        (fun acc2 func => if func ∈ public then insert func acc2 else acc2) acc := by
  induction funcs with
  | nil => intro acc h; exact h
  | cons f tl ih =>
    intro acc h
    rw [List.foldl_cons]
    by_cases hp : f ∈ public
    · rw [if_pos hp]; exact ih _ (Finset.mem_insert_of_mem h)
    · rw [if_neg hp]; exact ih _ h

/-- A changed function that is public lands in the inner fold's result. -/
lemma direct_inner_mem (public : Finset String) (funcs : List String)
    (f : String) (hf : f ∈ funcs) (hp : f ∈ public) :
    ∀ acc : Finset String,
      f ∈ funcs.foldl
        (fun acc2 func => if func ∈ public then insert func acc2 else acc2) acc := by
  induction funcs with
  | nil => cases hf
  | cons g tl ih =>
    intro acc
    rw [List.foldl_cons]
    rcases List.mem_cons.mp hf with rfl | hf'
    · rw [if_pos hp]
      exact direct_inner_mono public tl f _ (Finset.mem_insert_self f acc)
    · by_cases hg : g ∈ public
      · rw [if_pos hg]; exact ih hf' _
      · rw [if_neg hg]; exact ih hf' _

/-- `direct_apis` only returns public names. -/
lemma direct_apis_subset (changed : List (String × List String))
    (public : Finset String) : direct_apis changed public ⊆ public := by
  intro x hx
  unfold direct_apis at hx
  have := foldl_mem_or
    (fun acc (entry : String × List String) =>
      entry.2.foldl (fun acc2 func => if func ∈ public then insert func acc2 else acc2) acc)
    (fun acc => x ∈ acc) (x ∈ public)
    (fun acc e he => direct_inner_sub public e.2 x acc he) changed ∅ hx
  rcases this with h | h
  · simp at h
  · exact h

/-- A changed function that is public is a member of `direct_apis`. -/
lemma direct_apis_mem (changed : List (String × List String))
    (public : Finset String) (fp : String) (funcs : List String) (f : String)
    (hentry : (fp, funcs) ∈ changed) (hf : f ∈ funcs) (hp : f ∈ public) :
    f ∈ direct_apis changed public := by
  have mono : ∀ (l : List (String × List String)) (acc : Finset String), f ∈ acc →
      f ∈ l.foldl (fun acc (entry : String × List String) =>
        entry.2.foldl
          (fun acc2 func => if func ∈ public then insert func acc2 else acc2) acc) acc := by
    intro l
    induction l with
    | nil => intro acc h; exact h
    | cons e' tl' ih' =>
      intro acc h
      rw [List.foldl_cons]
      exact ih' _ (direct_inner_mono public e'.2 f acc h)
  suffices hgen : ∀ (l : List (String × List String)) (acc : Finset String),
      (fp, funcs) ∈ l →
      f ∈ l.foldl (fun acc (entry : String × List String) =>
        entry.2.foldl
          (fun acc2 func => if func ∈ public then insert func acc2 else acc2) acc) acc by
    exact hgen changed ∅ hentry
  intro l
  induction l with
  | nil => intro acc h; cases h
  | cons e tl ih =>
    intro acc hmem
    rw [List.foldl_cons]
    rcases List.mem_cons.mp hmem with rfl | h'
    · exact mono tl _ (direct_inner_mem public funcs f hf hp acc)
    · exact ih _ h'

/-! ## Claim theorems -/

/-- C1: For every build directory, change set, public API set and depth
bound, the set of impacted API names returned by the reachability analysis
(`find_related_public_apis`, and the engine `build_call_graph_with_lsp` it
calls) is a subset of the public API set: every name in the result is a
member of `publicAPISet`. -/
theorem claim_C1_impacted_subset_public (startOk : Bool)
    (fileExists : String → Bool) (callers : String → String → List String)
    (grepOut : String → String → Option String) (build_dir : String)
    (changed : List (String × List String)) (public : Finset String)
    (maxDepth : Nat) :
    build_call_graph_with_lsp startOk fileExists callers grepOut build_dir
      changed public maxDepth ⊆ public ∧
    find_related_public_apis startOk fileExists callers grepOut build_dir
      changed public ⊆ public := by
  have hengine : ∀ m, build_call_graph_with_lsp startOk fileExists callers
      grepOut build_dir changed public m ⊆ public := by
    intro m
    unfold build_call_graph_with_lsp
    cases startOk with
    | false =>
      intro x hx
      rw [if_neg (by simp)] at hx
      exact ((build_call_graph_simple_mem grepOut build_dir changed public m x).mp hx).1
    | true =>
      intro x hx
      rw [if_pos rfl] at hx
      exact lspEngine_subset fileExists callers build_dir changed public m hx
  refine ⟨hengine maxDepth, ?_⟩
  unfold find_related_public_apis
  intro x hx
  rcases Finset.mem_union.mp hx with h | h
  · exact direct_apis_subset changed public h
  · exact hengine 10 (Finset.mem_sdiff.mp h).1

/-- Witness for C1 at a concrete run: the engine's output on the
`internal_tokenize ← parse_buffer ← open_doc` caller chain is contained in
the public set, so its member `open_doc` is public. -/
theorem claim_C1_witness :
    ("open_doc" : String) ∈ insert "open_doc" (insert "read_doc" (∅ : Finset String)) :=
  (claim_C1_impacted_subset_public true (fun _ => true)
    (fun _ f => if f = "internal_tokenize" then ["parse_buffer"]
      else if f = "parse_buffer" then ["open_doc"] else [])
    (fun _ _ => none) "bd" [("parser.c", ["internal_tokenize"])]
    (insert "open_doc" (insert "read_doc" ∅)) 10).1 (by decide)

/-- C2: For every change set and public API set, every function name that
appears in the change set and is also a member of the public API set is
contained in the impacted-API set returned by the analysis, regardless of the
behavior of the caller lookup — the depth-0 terminal case.  (The lookup
`callers`, the client-start outcome `startOk`, the filesystem `fileExists`
and the grep fallback `grepOut` are all arbitrary.) -/
theorem claim_C2_direct_match_included (startOk : Bool)
    (fileExists : String → Bool) (callers : String → String → List String)
    (grepOut : String → String → Option String) (build_dir : String)
    (changed : List (String × List String)) (public : Finset String)
    (fp : String) (funcs : List String) (f : String)
    (hentry : (fp, funcs) ∈ changed) (hf : f ∈ funcs) (hp : f ∈ public) :
    f ∈ find_related_public_apis startOk fileExists callers grepOut build_dir
      changed public := by
  unfold find_related_public_apis
  exact Finset.mem_union_left _ (direct_apis_mem changed public fp funcs f hentry hf hp)

/-- Witness for C2: a changed function `f` that is public is reported even
when the file does not exist and the caller lookup returns garbage. -/
theorem claim_C2_witness :
    ("f" : String) ∈ find_related_public_apis true (fun _ => false)
      (fun _ _ => ["junk"]) (fun _ _ => none) "bd" [("a.c", ["f"])]
      (insert "f" ∅) :=
  claim_C2_direct_match_included true (fun _ => false) (fun _ _ => ["junk"])
    (fun _ _ => none) "bd" [("a.c", ["f"])] (insert "f" ∅) "a.c" ["f"] "f"
    (by decide) (by decide) (by decide)

/-- C3: The bounded BFS terminates for every caller-lookup behavior,
including cyclic caller graphs: the loop's result is already reached with
`queueWeight` fuel (one unit per admitted-or-discarded item, each
`VisitedKey` admitted at most once, deeper items discarded), so any larger
fuel gives the same answer; and on the caller cycle `a ← b ← a` with neither
name public the engine returns the empty set rather than looping. -/
theorem claim_C3_termination
    : (∀ (callers : String → String → List String) (public : Finset String)
        (maxDepth n₁ n₂ : Nat) (q : List FrontierItem) (v r : Finset String),
        queueWeight callers maxDepth q ≤ n₁ →
        queueWeight callers maxDepth q ≤ n₂ →
        bfsLoop callers public maxDepth n₁ q v r
          = bfsLoop callers public maxDepth n₂ q v r) ∧
      build_call_graph_with_lsp true (fun _ => true)
        (fun _ f => if f = "a" then ["b"] else if f = "b" then ["a"] else [])
        (fun _ _ => none) "bd" [("f.c", ["a"])] (insert "open_doc" ∅) 3 = ∅ := by
  constructor
  · intro callers public maxDepth n₁ n₂ q v r h₁ h₂
    exact bfsLoop_fuel_irrelevant callers public maxDepth n₁ n₂ q v r h₁ h₂
  · decide

/-- Witness for C3: fuel-irrelevance instantiated on the concrete cyclic
caller graph, with fuels 9 and 20 both above the queue weight 5. -/
theorem claim_C3_witness :
    bfsLoop (fun _ f => if f = "a" then ["b"] else if f = "b" then ["a"] else [])
      (insert "open_doc" ∅) 3 9 [⟨"a", "f.c", 0⟩] ∅ ∅
    = bfsLoop (fun _ f => if f = "a" then ["b"] else if f = "b" then ["a"] else [])
      (insert "open_doc" ∅) 3 20 [⟨"a", "f.c", 0⟩] ∅ ∅ :=
  claim_C3_termination.1
    (fun _ f => if f = "a" then ["b"] else if f = "b" then ["a"] else [])
    (insert "open_doc" ∅) 3 9 20 [⟨"a", "f.c", 0⟩] ∅ ∅ (by decide) (by decide)

/-- C4: A frontier item whose depth exceeds `maxDepth` is discarded without
expansion and without being recorded; on the chain
`internal_tokenize ← parse_buffer ← open_doc` with
`publicAPISet = {open_doc, read_doc}`, `maxDepth = 1` yields the empty set
while `maxDepth = 10` yields `{open_doc}`. -/
theorem claim_C4_depth_bound
    : (∀ (callers : String → String → List String) (public : Finset String)
        (maxDepth fuel : Nat) (it : FrontierItem) (rest : List FrontierItem)
        (v r : Finset String), it.depth > maxDepth →
        bfsLoop callers public maxDepth (fuel + 1) (it :: rest) v r
          = bfsLoop callers public maxDepth fuel rest v r) ∧
      build_call_graph_with_lsp true (fun _ => true)
        (fun _ f => if f = "internal_tokenize" then ["parse_buffer"]
          else if f = "parse_buffer" then ["open_doc"] else [])
        (fun _ _ => none) "bd" [("parser.c", ["internal_tokenize"])]
        (insert "open_doc" (insert "read_doc" ∅)) 1 = ∅ ∧
      build_call_graph_with_lsp true (fun _ => true)
        (fun _ f => if f = "internal_tokenize" then ["parse_buffer"]
          else if f = "parse_buffer" then ["open_doc"] else [])
        (fun _ _ => none) "bd" [("parser.c", ["internal_tokenize"])]
        (insert "open_doc" (insert "read_doc" ∅)) 10
        = insert "open_doc" ∅ := by
  refine ⟨?_, by decide, by decide⟩
  intro callers public maxDepth fuel it rest v r h
  simp only [bfsLoop]
  rw [if_pos (Or.inr h)]

/-- Witness for C4: a depth-2 item under bound 1 is dropped outright. -/
theorem claim_C4_witness :
    bfsLoop (fun _ _ => []) ∅ 1 1 [⟨"x", "f.c", 2⟩] ∅ ∅
      = bfsLoop (fun _ _ => []) ∅ 1 0 [] ∅ ∅ :=
  claim_C4_depth_bound.1 (fun _ _ => []) ∅ 1 0 ⟨"x", "f.c", 2⟩ [] ∅ ∅ (by decide)

/-- C5: When the Protocol Client fails to start, the analysis degrades to
the textual fallback; the fallback's caller extraction absorbs errors into an
empty caller set, and the engine's output in this mode still includes every
changed function that is a public API. -/
theorem claim_C5_fallback
    : (∀ (fileExists : String → Bool) (callers : String → String → List String)
        (grepOut : String → String → Option String) (build_dir : String)
        (changed : List (String × List String)) (public : Finset String)
        (maxDepth : Nat),
        build_call_graph_with_lsp false fileExists callers grepOut build_dir
          changed public maxDepth
          = build_call_graph_simple grepOut build_dir changed public maxDepth) ∧
      (∀ f : String, simpleExtractedCallers none f = []) ∧
      (∀ (fileExists : String → Bool) (callers : String → String → List String)
        (grepOut : String → String → Option String) (build_dir : String)
        (changed : List (String × List String)) (public : Finset String)
        (maxDepth : Nat) (fp : String) (funcs : List String) (f : String),
        (fp, funcs) ∈ changed → f ∈ funcs → f ∈ public →
        f ∈ build_call_graph_with_lsp false fileExists callers grepOut build_dir
          changed public maxDepth) := by
  refine ⟨fun _ _ _ _ _ _ _ => rfl, fun _ => rfl, ?_⟩
  intro fileExists callers grepOut build_dir changed public maxDepth fp funcs f
    hentry hf hp
  show f ∈ build_call_graph_simple grepOut build_dir changed public maxDepth
  exact (build_call_graph_simple_mem grepOut build_dir changed public maxDepth f).mpr
    ⟨hp, ⟨(fp, funcs), hentry, hf⟩⟩

/-- Witness for C5: with a failed client start, a grep that always raises
and a caller lookup that would loop, the direct match is still reported. -/
theorem claim_C5_witness :
    ("f" : String) ∈ build_call_graph_with_lsp false (fun _ => true)
      (fun _ _ => ["f"]) (fun _ _ => none) "bd" [("a.c", ["f"])]
      (insert "f" ∅) 3 :=
  claim_C5_fallback.2.2 (fun _ => true) (fun _ _ => ["f"]) (fun _ _ => none)
    "bd" [("a.c", ["f"])] (insert "f" ∅) 3 "a.c" ["f"] "f"
    (by decide) (by decide) (by decide)

/-- C9: A change-set entry whose file path, joined under the build
directory, does not exist on disk is skipped before seeding: removing such an
entry does not change the engine's result, so none of its changed functions
ever contributes — even one that is a public API. -/
theorem claim_C9_nonexistent_file_skipped (fileExists : String → Bool)
    (callers : String → String → List String)
    (grepOut : String → String → Option String) (build_dir : String)
    (pre post : List (String × List String)) (fp : String)
    (funcs : List String) (public : Finset String) (maxDepth : Nat)
    (h : fileExists (ospathJoin build_dir fp) = false) :
    build_call_graph_with_lsp true fileExists callers grepOut build_dir
      (pre ++ (fp, funcs) :: post) public maxDepth
    = build_call_graph_with_lsp true fileExists callers grepOut build_dir
      (pre ++ post) public maxDepth := by
  have hstep : ∀ st, engineEntryStep fileExists callers public maxDepth build_dir
      st (fp, funcs) = st := by
    intro st
    unfold engineEntryStep
    simp [h]
  show lspEngine fileExists callers build_dir (pre ++ (fp, funcs) :: post) public maxDepth
    = lspEngine fileExists callers build_dir (pre ++ post) public maxDepth
  unfold lspEngine
  rw [List.foldl_append, List.foldl_append, List.foldl_cons, hstep]

/-- Witness for C9: a public changed function in a nonexistent file yields
the same (empty) result as an empty change set. -/
theorem claim_C9_witness :
    build_call_graph_with_lsp true (fun _ => false) (fun _ _ => [])
      (fun _ _ => none) "bd" [("x.c", ["f"])] (insert "f" ∅) 3
    = build_call_graph_with_lsp true (fun _ => false) (fun _ _ => [])
      (fun _ _ => none) "bd" [] (insert "f" ∅) 3 :=
  claim_C9_nonexistent_file_skipped (fun _ => false) (fun _ _ => [])
    (fun _ _ => none) "bd" [] [] "x.c" ["f"] (insert "f" ∅) 3 rfl

/-- C10: `build_call_graph_simple` never enqueues any discovered caller (its
caller-extraction step is empty), so for every input it returns exactly the
set of changed function names that are members of `publicAPISet`. -/
theorem claim_C10_simple_exact
    : (∀ (grepOutput : Option String) (f : String),
        simpleExtractedCallers grepOutput f = []) ∧
      (∀ (grepOut : String → String → Option String) (build_dir : String)
        (changed : List (String × List String)) (public : Finset String)
        (maxDepth : Nat) (x : String),
        x ∈ build_call_graph_simple grepOut build_dir changed public maxDepth
          ↔ (x ∈ public ∧ ∃ e ∈ changed, x ∈ e.2)) :=
  ⟨simpleExtractedCallers_eq_nil,
   fun grepOut build_dir changed public maxDepth x =>
    build_call_graph_simple_mem grepOut build_dir changed public maxDepth x⟩

/-! ## Claim theorems: protocol client -/

/-- Counterexample to C6: the subprocess spawns but the `initialize` response
never arrives within the bounded wait (the response table stays empty for all
50 poll ticks, so `_send_request` returns `None`) — yet `start()` returns
`True`: the session is treated as Ready, not Failed.  C6 as stated would
require the result to be `false` here. -/
theorem claim_C6_counterexample : clangdStart true (fun _ => none) = true := rfl

/-- C6 (amended): `ClangdLSPClient.start()` reports failure exactly when
spawning the subprocess raises; after a successful spawn the initialize
response is bound but never inspected, so an initialize timeout (a `None`
result of the bounded ~5 s polled wait) is ignored and `start()` still
reports success. -/
theorem claim_C6_amended_start_ignores_timeout (spawnOk : Bool)
    (tableAt : Nat → Option String) : clangdStart spawnOk tableAt = spawnOk := by
  cases spawnOk <;> rfl

/-- Each session id is a lower bound on everything assigned from there on. -/
lemma sessionIds_lower :
    ∀ (n : Nat) (s : ClangdClientState) (x : Nat),
      x ∈ sessionIds s n → s.msg_id ≤ x := by
  intro n
  induction n with
  | zero => intro s x hx; simp [sessionIds] at hx
  | succ n ih =>
    intro s x hx
    simp only [sessionIds, sendRequestId, List.mem_cons] at hx
    rcases hx with rfl | hx
    · exact Nat.le_refl _
    · have h2 := ih ⟨s.msg_id + 1⟩ x hx
      have h3 : (⟨s.msg_id + 1⟩ : ClangdClientState).msg_id = s.msg_id + 1 := rfl
      omega

/-- The polled wait returns `none` when no response is ever recorded. -/
lemma pollLoop_none (tableAt : Nat → Option String) :
    ∀ (k t : Nat), (∀ u, t ≤ u → u < t + k → tableAt u = none) →
      pollLoop tableAt t k = none := by
  intro k
  induction k with
  | zero => intro t _; rfl
  | succ k ih =>
    intro t h
    have ht : tableAt t = none := h t (Nat.le_refl t) (by omega)
    simp only [pollLoop, ht]
    exact ih (t + 1) (fun u hu1 hu2 => h u (by omega) (by omega))

/-- C7: Every `_send_request` id is fresh and strictly greater than all ids
previously assigned in the session (the id stream is strictly increasing),
and when the response table never holds the request's id during the 50-tick
polled wait, the call's result is `None` — returned, not raised. -/
theorem claim_C7_request_ids_and_timeout
    : (∀ (s : ClangdClientState) (n : Nat),
        (sessionIds s n).Pairwise (· < ·)) ∧
      (∀ tableAt : Nat → Option String,
        (∀ t, t < 50 → tableAt t = none) → sendRequestResult tableAt = none) := by
  constructor
  · intro s n
    induction n generalizing s with
    | zero => exact List.Pairwise.nil
    | succ n ih =>
      simp only [sessionIds, sendRequestId]
      refine List.Pairwise.cons ?_ (ih ⟨s.msg_id + 1⟩)
      intro x hx
      have h2 := sessionIds_lower n ⟨s.msg_id + 1⟩ x hx
      have h3 : (⟨s.msg_id + 1⟩ : ClangdClientState).msg_id = s.msg_id + 1 := rfl
      omega
  · intro tableAt h
    exact pollLoop_none tableAt 50 0 (fun u _ hu => h u (by omega))

/-- Witness for C7: three requests from a fresh client get strictly
increasing ids, and a never-filled response table yields `None`. -/
theorem claim_C7_witness :
    (sessionIds ⟨0⟩ 3).Pairwise (· < ·) ∧
      sendRequestResult (fun _ => none) = none :=
  ⟨claim_C7_request_ids_and_timeout.1 ⟨0⟩ 3,
   claim_C7_request_ids_and_timeout.2 (fun _ => none) (fun _ _ => rfl)⟩

/-! ## Helper lemmas: the reader -/

/-- The first `\r\n\r\n` in a buffer that starts with a CR-free header is
exactly at the end of that header. -/
lemma indexOfSub_no_cr :
    ∀ (pre suf : List Char), (∀ ch ∈ pre, ch ≠ '\r') →
      listIndexOfSub (pre ++ '\r' :: '\n' :: '\r' :: '\n' :: suf)
        ['\r', '\n', '\r', '\n'] = some pre.length := by
  intro pre
  induction pre with
  | nil =>
    intro suf _
    simp only [List.nil_append]
    rw [listIndexOfSub, if_pos]
    · rfl
    · exact List.isPrefixOf_iff_prefix.mpr (List.prefix_append _ _)
  | cons c pre' ih =>
    intro suf h
    have hc : (('\r' : Char) == c) = false :=
      beq_eq_false_iff_ne.mpr (fun he => (h c (List.mem_cons_self c pre')) he.symm)
    have hnp : ((['\r', '\n', '\r', '\n'] : List Char).isPrefixOf
        (c :: (pre' ++ '\r' :: '\n' :: '\r' :: '\n' :: suf))) = false := by
      simp [List.isPrefixOf, hc]
    have hrec := ih suf (fun ch hch => h ch (List.mem_cons_of_mem _ hch))
    rw [List.cons_append, listIndexOfSub]
    simp [hnp, hrec]

/-- `split('\r\n')` of a CR-free string is the whole string. -/
lemma splitOnCRLF_no_cr :
    ∀ (l : List Char), (∀ ch ∈ l, ch ≠ '\r') → splitOnCRLF l = [l] := by
  intro l
  induction l with
  | nil => intro _; rfl
  | cons c rest ih =>
    intro h
    cases rest with
    | nil => rfl
    | cons c2 rest' =>
      have hc : ¬(c = '\r' ∧ c2 = '\n') := fun hand => h c (List.mem_cons_self _ _) hand.1
      have hrec := ih (fun ch hch => h ch (List.mem_cons_of_mem _ hch))
      rw [splitOnCRLF, if_neg hc, hrec]

/-- `split(':')` of a colon-free string is the whole string. -/
lemma splitOnColon_no_colon :
    ∀ (l : List Char), (∀ ch ∈ l, ch ≠ ':') → splitOnColon l = [l] := by
  intro l
  induction l with
  | nil => intro _; rfl
  | cons c rest ih =>
    intro h
    have hc : ¬(c = ':') := h c (List.mem_cons_self _ _)
    have hrec := ih (fun ch hch => h ch (List.mem_cons_of_mem _ hch))
    rw [splitOnColon, if_neg hc, hrec]

/-- `split(':')` splits at the first colon. -/
lemma splitOnColon_append_colon :
    ∀ (pre suffix : List Char), (∀ ch ∈ pre, ch ≠ ':') →
      splitOnColon (pre ++ ':' :: suffix) = pre :: splitOnColon suffix := by
  intro pre
  induction pre with
  | nil =>
    intro suffix _
    simp only [List.nil_append]
    rw [splitOnColon, if_pos rfl]
  | cons c pre' ih =>
    intro suffix h
    have hc : ¬(c = ':') := h c (List.mem_cons_self _ _)
    have hrec := ih suffix (fun ch hch => h ch (List.mem_cons_of_mem _ hch))
    rw [List.cons_append, splitOnColon, if_neg hc, hrec]

/-- Parsing the generated header `Content-Length:<numStr>` runs Python's
`int` on `<numStr>`. -/
lemma contentLength_header (numStr : List Char)
    (h1 : ∀ ch ∈ numStr, ch ≠ '\r') (h2 : ∀ ch ∈ numStr, ch ≠ ':') :
    contentLengthOfHeaders ("Content-Length:".toList ++ numStr) = pyInt numStr := by
  have hnocr : ∀ ch ∈ "Content-Length:".toList ++ numStr, ch ≠ '\r' := by
    intro ch hch
    rcases List.mem_append.mp hch with hm | hm
    · have hconst : ∀ ch ∈ "Content-Length:".toList, ch ≠ '\r' := by decide
      exact hconst ch hm
    · exact h1 ch hm
  have hsplitcl : "Content-Length:".toList = "Content-Length".toList ++ [':'] := by decide
  have hsplit : splitOnColon ("Content-Length:".toList ++ numStr)
      = "Content-Length".toList :: splitOnColon numStr := by
    rw [hsplitcl, List.append_assoc, List.singleton_append]
    exact splitOnColon_append_colon _ _ (by decide)
  have hpfx : ("Content-Length:".toList.isPrefixOf
      ("Content-Length:".toList ++ numStr)) = true :=
    List.isPrefixOf_iff_prefix.mpr (List.prefix_append _ _)
  unfold contentLengthOfHeaders
  rw [splitOnCRLF_no_cr _ hnocr]
  rw [List.find?_cons, hpfx]
  simp only [hsplit, splitOnColon_no_colon _ h2]
  rfl

/-- A frame whose `Content-Length` value fails integer parsing makes the
reader exit through the exception path, dropping all later frames. -/
lemma reader_bad_header_dies (jsonParse : String → Option (Option Int))
    (fuel : Nat) (pre suf : List Char) (responses : List (Int × String))
    (hpre : ∀ ch ∈ pre, ch ≠ '\r') (hraise : contentLengthOfHeaders pre = none) :
    readInner jsonParse fuel (pre ++ '\r' :: '\n' :: '\r' :: '\n' :: suf) responses
      = ⟨responses, true, false⟩ := by
  have htake : (pre ++ '\r' :: '\n' :: '\r' :: '\n' :: suf).take pre.length = pre :=
    List.take_left pre _
  rw [readInner]
  simp only [indexOfSub_no_cr pre suf hpre, htake, hraise]

/-- A frame with a well-formed `Content-Length` header whose body fails JSON
parsing is discarded: the response table is unchanged and the reader
continues with the rest of the stream. -/
lemma reader_discards_bad_body (jsonParse : String → Option (Option Int))
    (fuel : Nat) (numStr body rest : List Char) (responses : List (Int × String))
    (h1 : ∀ ch ∈ numStr, ch ≠ '\r') (h2 : ∀ ch ∈ numStr, ch ≠ ':')
    (h3 : pyInt numStr = some (body.length : Int))
    (h4 : jsonParse (String.mk body) = none) :
    readInner jsonParse (fuel + 1)
      (("Content-Length:".toList ++ numStr)
        ++ '\r' :: '\n' :: '\r' :: '\n' :: (body ++ rest)) responses
      = readInner jsonParse fuel rest responses := by
  have hnocr : ∀ ch ∈ "Content-Length:".toList ++ numStr, ch ≠ '\r' := by
    intro ch hch
    rcases List.mem_append.mp hch with hm | hm
    · have hconst : ∀ ch ∈ "Content-Length:".toList, ch ≠ '\r' := by decide
      exact hconst ch hm
    · exact h1 ch hm
  set pre : List Char := "Content-Length:".toList ++ numStr with hpre_def
  set buf : List Char := pre ++ '\r' :: '\n' :: '\r' :: '\n' :: (body ++ rest)
    with hbuf_def
  have htake : buf.take pre.length = pre := List.take_left pre _
  have hcl : contentLengthOfHeaders pre = some (body.length : Int) := by
    rw [hpre_def, contentLength_header numStr h1 h2, h3]
  have hshape : buf = ((pre ++ ['\r', '\n', '\r', '\n']) ++ body) ++ rest := by
    simp [hbuf_def, List.append_assoc]
  have h4len : (pre ++ ['\r', '\n', '\r', '\n'] : List Char).length
      = pre.length + 4 := by simp
  have hablen : ((pre ++ ['\r', '\n', '\r', '\n']) ++ body).length
      = pre.length + 4 + body.length := by simp; omega
  have hbuflen : buf.length = pre.length + 4 + body.length + rest.length := by
    rw [hshape]; simp; omega
  have hlen : (buf.length : Int) ≥ (pre.length : Int) + 4 + (body.length : Int) := by
    rw [hbuflen]; push_cast; omega
  have hbnat : (((pre.length : Int) + 4 + (body.length : Int))).toNat
      = pre.length + 4 + body.length := by omega
  have hanat : (((pre.length : Int) + 4)).toNat = pre.length + 4 := by omega
  have hcontent : pySliceRange buf ((pre.length : Int) + 4)
      ((pre.length : Int) + 4 + (body.length : Int)) = body := by
    unfold pySliceRange pyIndexNorm
    rw [if_neg (by omega : ¬(((pre.length : Int) + 4 + (body.length : Int)) < 0)),
        if_neg (by omega : ¬(((pre.length : Int) + 4) < 0)), hbnat, hanat]
    rw [min_eq_left (by rw [hbuflen]; omega),
        min_eq_left (by rw [hbuflen]; omega)]
    rw [hshape, List.take_append_eq_append_take,
        List.take_of_length_le (by rw [hablen]),
        (by rw [hablen]; omega : pre.length + 4 + body.length
          - ((pre ++ ['\r', '\n', '\r', '\n']) ++ body).length = 0),
        List.take_zero, List.append_nil]
    have := List.drop_left (pre ++ ['\r', '\n', '\r', '\n']) body
    rw [h4len] at this
    exact this
  have hbuffer : pyDropFrom buf ((pre.length : Int) + 4 + (body.length : Int))
      = rest := by
    unfold pyDropFrom pyIndexNorm
    rw [if_neg (by omega : ¬(((pre.length : Int) + 4 + (body.length : Int)) < 0)),
        hbnat, min_eq_left (by rw [hbuflen]; omega)]
    have := List.drop_left ((pre ++ ['\r', '\n', '\r', '\n']) ++ body) rest
    rw [hablen] at this
    rw [hshape]
    exact this
  rw [readInner]
  simp only [indexOfSub_no_cr pre (body ++ rest) hnocr, htake, hcl,
    if_pos hlen, hcontent, hbuffer, h4]

/-- Counterexample to C8: a frame whose `Content-Length` header value is not
an integer (`Content-Length: abc`) is not discarded-and-skipped — the
`ValueError` from `int()` escapes to the outer `except ...: break`, the
reader stops, and the following well-formed frame (which on its own would be
delivered as response id 1) is never delivered. -/
theorem claim_C8_counterexample :
    readResponses (fun s => if s = "BODYA" then some (some 1) else none)
      "Content-Length: abc\r\n\r\nContent-Length: 5\r\n\r\nBODYA"
      = ⟨[], true, false⟩ ∧
    readResponses (fun s => if s = "BODYA" then some (some 1) else none)
      "Content-Length: 5\r\n\r\nBODYA"
      = ⟨[(1, "BODYA")], false, false⟩ := by
  constructor
  · decide
  · decide

/-- C8 (amended): when the reader encounters a frame whose `Content-Length`
header parses but whose body is not valid JSON, it discards the frame
(response table unchanged) and continues draining subsequent framed
messages; but a frame whose `Content-Length` value fails integer parsing
raises out of the header scan and exits the reader loop, dropping everything
after it. -/
theorem claim_C8_amended_reader
    : (∀ (jsonParse : String → Option (Option Int)) (fuel : Nat)
        (numStr body rest : List Char) (responses : List (Int × String)),
        (∀ ch ∈ numStr, ch ≠ '\r') → (∀ ch ∈ numStr, ch ≠ ':') →
        pyInt numStr = some (body.length : Int) →
        jsonParse (String.mk body) = none →
        readInner jsonParse (fuel + 1)
          (("Content-Length:".toList ++ numStr)
            ++ '\r' :: '\n' :: '\r' :: '\n' :: (body ++ rest)) responses
          = readInner jsonParse fuel rest responses) ∧
      (∀ (jsonParse : String → Option (Option Int)) (fuel : Nat)
        (pre suf : List Char) (responses : List (Int × String)),
        (∀ ch ∈ pre, ch ≠ '\r') → contentLengthOfHeaders pre = none →
        readInner jsonParse fuel (pre ++ '\r' :: '\n' :: '\r' :: '\n' :: suf)
          responses = ⟨responses, true, false⟩) :=
  ⟨reader_discards_bad_body, reader_bad_header_dies⟩

/-- Witness for the amended C8: a 5-byte body that fails JSON parsing is
skipped with the table unchanged, and a `Content-Length: abc` header kills
the reader. -/
theorem claim_C8_witness :
    readInner (fun _ => none) 1
      (("Content-Length:".toList ++ " 5".toList)
        ++ '\r' :: '\n' :: '\r' :: '\n' :: ("XYZAB".toList ++ [])) []
      = readInner (fun _ => none) 0 [] [] ∧
    readInner (fun _ => none) 7
      ("Content-Length: abc".toList ++ '\r' :: '\n' :: '\r' :: '\n' :: []) []
      = ⟨[], true, false⟩ :=
  ⟨claim_C8_amended_reader.1 (fun _ => none) 0 (" 5".toList) ("XYZAB".toList)
    [] [] (by decide) (by decide) (by decide) rfl,
   claim_C8_amended_reader.2 (fun _ => none) 7 ("Content-Length: abc".toList)
    [] [] (by decide) (by decide)⟩

end CiFuzz
